import Mathlib

/-!
Verification of the health-arbitration core of the blutgang RPC load
balancer (`src/health/check.rs`).  The active pool and the poverty pool are
modelled as ordered lists of node handles; the arbitration functions
`make_poverty`, `escape_poverty`, `head_check` and `send_dropped_to_poverty`
are shallow embeddings of the corresponding Rust functions.  Machine
integers (`u64`, `usize`) are modelled as `Nat`: the code only compares
them, never performs arithmetic that could overflow.  Rust indexing
`guard[i]`, which panics when `i` is out of range, is modelled by returning
`none` from the embedding.
-/

set_option maxRecDepth 4000

/-- Node status: mirrors the `status.is_erroring` flag used by
`check.rs`.  The `Rpc` record itself lives in `rpc/types.rs`; its shape is
modelled from the spec's data model (identity URL plus a mutable
`is_erroring` boolean), which is exactly the part `check.rs` touches. -/
structure Status where
  is_erroring : Bool
deriving DecidableEq, Repr

/-- Node handle: one upstream RPC endpoint, identified by its URL, with the
mutable status flag.  Cloning in Rust copies the record; the fetch
capability is irrelevant to the arbitration functions and is not part of
the state. -/
structure Rpc where
  url : String
  status : Status
deriving DecidableEq, Repr

instance : Inhabited Rpc := ⟨⟨"", ⟨false⟩⟩⟩

/-- Poll result for one node: `rpc_list_index` refers to the polled pool's
order at poll time, `reported_head` is the head the node claimed (`0` for
unresponsive nodes).  Mirrors `struct HeadResult` in `check.rs`. -/
structure HeadResult where
  rpc_list_index : Nat
  reported_head : Nat
deriving DecidableEq, Repr

/-- `setFlag b r` is `r` with `status.is_erroring` set to `b`: the effect of
the Rust assignments `….status.is_erroring = true` (demotion) and
`….status.is_erroring = false` (promotion) on a node record. -/
def setFlag (b : Bool) (r : Rpc) : Rpc :=
  { r with status := { is_erroring := b } }

/-- The common shape of the two arbitration loops in `check.rs`
(`make_poverty` lines 177-189, `escape_poverty` lines 208-225): walk the
poll results; whenever the predicate `p` accepts a reported head, write the
flag value `b` into the indexed pool's slot at `rpc_list_index` and append
the modified clone to the other pool.  Rust's panicking index is modelled
by `none` when the index is out of range.  In `make_poverty` the indexed
pool is the active list (`p` = "below the agreed head", `b` = `true`, the
clone is pushed after the flag is set so it carries `is_erroring = true`);
in `escape_poverty` the indexed pool is the poverty list (`p` = "at least
the agreed head", `b` = `false`, and the slot itself also ends with the
flag cleared, matching the explicit clear on the poverty slot). -/
def arbitrate (p : Nat → Bool) (b : Bool) :
    List HeadResult → List Rpc → List Rpc → Option (List Rpc × List Rpc)
  | [], indexed, other => some (indexed, other)
  | h :: rest, indexed, other =>
    if p h.reported_head then
      if hlt : h.rpc_list_index < indexed.length then
        let r := setFlag b (indexed.get ⟨h.rpc_list_index, hlt⟩)
        arbitrate p b rest (indexed.set h.rpc_list_index r) (other ++ [r])
      else none
    else arbitrate p b rest indexed other

/-- The agreed head: maximum reported head, computed by the fold at the top
of `make_poverty` (`check.rs` lines 166-171): start from `0`, replace the
accumulator whenever a strictly larger head is seen. -/
def highest_of (heads : List HeadResult) : Nat :=
  heads.foldl (fun acc h => if h.reported_head > acc then h.reported_head else acc) 0

/-- `make_poverty` (`check.rs` lines 160-195): compute the agreed head,
mark every node reporting strictly less as erroring and push its (already
marked) clone onto the poverty list, then retain in the active list only
nodes that are not erroring, and return the agreed head. -/
def make_poverty (rpc_list poverty_list : List Rpc) (heads : List HeadResult) :
    Option (List Rpc × List Rpc × Nat) :=
  let highest_head := highest_of heads
  (arbitrate (fun rep => decide (rep < highest_head)) true heads rpc_list poverty_list).map
    (fun pools =>
      (pools.1.filter (fun rpc => !rpc.status.is_erroring), pools.2, highest_head))

/-- `escape_poverty` (`check.rs` lines 198-231): for every poll result over
the poverty list reporting at least the agreed head, push a clone with the
erroring flag cleared onto the active list and clear the flag on the
poverty slot itself; then retain in the poverty list only nodes still
erroring. -/
def escape_poverty (rpc_list poverty_list : List Rpc) (poverty_heads : List HeadResult)
    (agreed_head : Nat) : Option (List Rpc × List Rpc) :=
  (arbitrate (fun rep => decide (agreed_head ≤ rep)) false poverty_heads
      poverty_list rpc_list).map
    (fun pools => (pools.2, pools.1.filter (fun rpc => rpc.status.is_erroring)))

/-- Outcome of one per-node fetch in `head_check` (`check.rs` lines
121-133): `none` is a timeout of the whole request, `some none` a fetch
that completed with an error, `some (some h)` a successful response. -/
def normalize_response (result : Option (Option Nat)) : Nat :=
  match result with
  | some response => response.getD 0
  | none => 0

/-- `head_check` (`check.rs` lines 97-157): one poll result per node of the
polled pool, index-correlated.  The per-node network outcomes are a
parameter (`responses`); each outcome is normalized, failure and timeout
becoming head `0`.  The source collects results from a channel in arrival
order; the embedding lists them in index order (no claim depends on the
order).  The only Rust error path is an internal channel panic, so the
embedding always returns `Except.ok`. -/
def head_check (rpc_list : List Rpc) (responses : Nat → Option (Option Nat)) :
    Except String (List HeadResult) :=
  if rpc_list.length = 0 then Except.ok []
  else
    Except.ok ((List.range rpc_list.length).map
      (fun i => ⟨i, normalize_response (responses i)⟩))

/-- Result of `send_dropped_to_poverty` (`check.rs` lines 234-260): the two
pools after the critical section, whether `move_subscriptions` was invoked
(the call sits after the pool block and runs on every path), and the
propagated result of that call. -/
structure DropOutcome where
  rpc_list : List Rpc
  poverty_list : List Rpc
  migration_invoked : Bool
  result : Except String Unit
deriving Repr

/-- `send_dropped_to_poverty` (`check.rs` lines 234-260): if the dropped
index is still present in the active list, push its clone onto the poverty
list and remove it from the active list; otherwise leave both pools alone.
Then invoke `move_subscriptions` unconditionally, propagating its result
(`migration_result` stands for the outcome of that external call). -/
def send_dropped_to_poverty (rpc_list poverty_list : List Rpc)
    (migration_result : Except String Unit) (ws_conn_index : Nat) : DropOutcome :=
  match rpc_list.get? ws_conn_index with
  | some rpc =>
    ⟨rpc_list.eraseIdx ws_conn_index, poverty_list ++ [rpc], true, migration_result⟩
  | none => ⟨rpc_list, poverty_list, true, migration_result⟩

/-- Result of one iteration of `dropped_listener` (`check.rs` lines
263-295) on a `WsChannelErr::Closed` notification. -/
structure ListenerOutcome where
  rpc_list : List Rpc
  poverty_list : List Rpc
  migration_invoked : Bool
  reconnect_sent : Bool
deriving Repr

/-- One `dropped_listener` iteration on `Closed(index)` (`check.rs` lines
275-287): call `send_dropped_to_poverty`, swallow its error
(`unwrap_or(())`), then send the reconnect signal, also best-effort, on
every path. -/
def dropped_listener_step (rpc_list poverty_list : List Rpc)
    (migration_result : Except String Unit) (index : Nat) : ListenerOutcome :=
  let d := send_dropped_to_poverty rpc_list poverty_list migration_result index
  ⟨d.rpc_list, d.poverty_list, d.migration_invoked, true⟩

/-!
## Helper lemmas

Basic facts about `setFlag`, list indexing with a default, the per-index
view of the arbitration loop, and the agreed-head fold.
-/

theorem setFlag_setFlag (b b' : Bool) (r : Rpc) :
    setFlag b (setFlag b' r) = setFlag b r := rfl

theorem status_setFlag (b : Bool) (r : Rpc) :
    (setFlag b r).status.is_erroring = b := rfl

theorem getD_eq_get {α : Type} (l : List α) (d : α) {i : Nat} (h : i < l.length) :
    l.getD i d = l.get ⟨i, h⟩ := by
  simp [List.getD_eq_getElem?_getD, List.getElem?_eq_getElem h, List.get_eq_getElem]

theorem getD_set_self {α : Type} {l : List α} {i : Nat} (a d : α) (h : i < l.length) :
    (l.set i a).getD i d = a := by
  simp [List.getD_eq_getElem?_getD, List.getElem?_set_self h]

theorem getD_set_ne {α : Type} {l : List α} {i j : Nat} (a d : α) (h : i ≠ j) :
    (l.set i a).getD j d = l.getD j d := by
  simp [List.getD_eq_getElem?_getD, List.getElem?_set_ne h]

theorem getD_mem {α : Type} {l : List α} {i : Nat} (d : α) (h : i < l.length) :
    l.getD i d ∈ l := by
  rw [getD_eq_get l d h]
  exact l.get_mem _ _

/-- `hits p heads i` holds when some poll result for slot `i` satisfies the
arbitration predicate: slot `i` gets its flag written during the loop. -/
def hits (p : Nat → Bool) (heads : List HeadResult) (i : Nat) : Bool :=
  heads.any (fun h => h.rpc_list_index == i && p h.reported_head)

/-- The clones appended to the other pool by the arbitration loop, in
result order: one flagged copy per accepted poll result. -/
def clones (p : Nat → Bool) (b : Bool) (l : List Rpc) (heads : List HeadResult) : List Rpc :=
  (heads.filter (fun h => p h.reported_head)).map
    (fun h => setFlag b (l.getD h.rpc_list_index default))

theorem hits_nil (p : Nat → Bool) (i : Nat) : hits p [] i = false := rfl

theorem hits_cons (p : Nat → Bool) (h : HeadResult) (rest : List HeadResult) (i : Nat) :
    hits p (h :: rest) i = ((h.rpc_list_index == i && p h.reported_head) || hits p rest i) := by
  simp [hits, List.any_cons]

theorem clones_nil (p : Nat → Bool) (b : Bool) (l : List Rpc) : clones p b l [] = [] := rfl

theorem clones_cons_pos {p : Nat → Bool} (b : Bool) (l : List Rpc) {h : HeadResult}
    (rest : List HeadResult) (hp : p h.reported_head = true) :
    clones p b l (h :: rest) =
      setFlag b (l.getD h.rpc_list_index default) :: clones p b l rest := by
  simp [clones, List.filter_cons, hp]

theorem clones_cons_neg {p : Nat → Bool} (b : Bool) (l : List Rpc) {h : HeadResult}
    (rest : List HeadResult) (hp : p h.reported_head = false) :
    clones p b l (h :: rest) = clones p b l rest := by
  simp [clones, List.filter_cons, hp]

theorem setFlag_getD_set {l : List Rpc} {j : Nat} (b : Bool) (hj : j < l.length) (i : Nat) :
    setFlag b ((l.set j (setFlag b (l.getD j default))).getD i default) =
      setFlag b (l.getD i default) := by
  by_cases hij : j = i
  · subst hij
    rw [getD_set_self _ _ hj, setFlag_setFlag]
  · rw [getD_set_ne _ _ hij]

theorem clones_set {l : List Rpc} {j : Nat} (p : Nat → Bool) (b : Bool)
    (hj : j < l.length) (heads : List HeadResult) :
    clones p b (l.set j (setFlag b (l.getD j default))) heads = clones p b l heads := by
  unfold clones
  exact List.map_congr_left (fun h _ => setFlag_getD_set b hj h.rpc_list_index)

/-- Full characterization of the arbitration loop: when every accepted
result's index is in range, the loop succeeds, the other pool gains exactly
the flagged clones (in result order), the indexed pool keeps its length,
and slot `i` ends flagged exactly when some accepted result names it. -/
theorem arbitrate_spec (p : Nat → Bool) (b : Bool) :
    ∀ (heads : List HeadResult) (indexed other : List Rpc),
    (∀ h ∈ heads, p h.reported_head = true → h.rpc_list_index < indexed.length) →
    ∃ indexed',
      arbitrate p b heads indexed other = some (indexed', other ++ clones p b indexed heads) ∧
      indexed'.length = indexed.length ∧
      ∀ i, indexed'.getD i default =
        if hits p heads i then setFlag b (indexed.getD i default)
        else indexed.getD i default := by
  intro heads
  induction heads with
  | nil =>
    intro indexed other _
    refine ⟨indexed, ?_, rfl, ?_⟩
    · simp [arbitrate, clones_nil]
    · intro i
      simp [hits_nil]
  | cons h rest ih =>
    intro indexed other hin
    by_cases hp : p h.reported_head = true
    · have hlt : h.rpc_list_index < indexed.length :=
        hin h (List.mem_cons_self _ _) hp
      have hgd : indexed.get ⟨h.rpc_list_index, hlt⟩ = indexed.getD h.rpc_list_index default :=
        (getD_eq_get indexed default hlt).symm
      have hin' : ∀ h' ∈ rest, p h'.reported_head = true →
          h'.rpc_list_index <
            (indexed.set h.rpc_list_index
              (setFlag b (indexed.getD h.rpc_list_index default))).length := by
        intro h' hm hp'
        rw [List.length_set]
        exact hin h' (List.mem_cons_of_mem _ hm) hp'
      obtain ⟨indexed', heq, hlen, hchar⟩ :=
        ih (indexed.set h.rpc_list_index (setFlag b (indexed.getD h.rpc_list_index default)))
          (other ++ [setFlag b (indexed.getD h.rpc_list_index default)]) hin'
      refine ⟨indexed', ?_, ?_, ?_⟩
      · show arbitrate p b (h :: rest) indexed other = _
        rw [arbitrate]
        rw [if_pos hp, dif_pos hlt, hgd, heq]
        rw [clones_set p b hlt rest, clones_cons_pos b indexed rest hp]
        rw [List.append_assoc]
        rfl
      · rw [hlen, List.length_set]
      · intro i
        rw [hchar i, hits_cons]
        by_cases hij : h.rpc_list_index = i
        · subst hij
          rw [getD_set_self _ _ hlt]
          simp [hp, setFlag_setFlag]
        · rw [getD_set_ne _ _ hij]
          have : (h.rpc_list_index == i) = false := by
            simpa using hij
          simp [this]
    · have hpf : p h.reported_head = false := by
        simpa using hp
      obtain ⟨indexed', heq, hlen, hchar⟩ :=
        ih indexed other (fun h' hm hp' => hin h' (List.mem_cons_of_mem _ hm) hp')
      refine ⟨indexed', ?_, hlen, ?_⟩
      · show arbitrate p b (h :: rest) indexed other = _
        rw [arbitrate, if_neg (by simp [hpf]), heq, clones_cons_neg b indexed rest hpf]
      · intro i
        rw [hchar i, hits_cons, hpf]
        simp

theorem arbitrate_no_hit (p : Nat → Bool) (b : Bool) :
    ∀ (heads : List HeadResult) (indexed other : List Rpc),
    (∀ h ∈ heads, p h.reported_head = false) →
    arbitrate p b heads indexed other = some (indexed, other) := by
  intro heads
  induction heads with
  | nil => intro indexed other _; rfl
  | cons h rest ih =>
    intro indexed other hall
    rw [arbitrate, if_neg (by simp [hall h (List.mem_cons_self _ _)])]
    exact ih indexed other (fun h' hm => hall h' (List.mem_cons_of_mem _ hm))

theorem foldl_head_acc_le :
    ∀ (l : List HeadResult) (a : Nat),
    a ≤ l.foldl (fun acc h => if h.reported_head > acc then h.reported_head else acc) a := by
  intro l
  induction l with
  | nil => intro a; exact Nat.le_refl a
  | cons h t ih =>
    intro a
    refine Nat.le_trans ?_ (ih _)
    by_cases hc : h.reported_head > a
    · simp [hc]; omega
    · simp [hc]

theorem foldl_head_mem_le :
    ∀ (l : List HeadResult) (a : Nat) (h : HeadResult), h ∈ l →
    h.reported_head ≤
      l.foldl (fun acc h => if h.reported_head > acc then h.reported_head else acc) a := by
  intro l
  induction l with
  | nil => intro a h hm; cases hm
  | cons x t ih =>
    intro a h hm
    rcases List.mem_cons.mp hm with heq | hmt
    · subst heq
      refine Nat.le_trans ?_ (foldl_head_acc_le t _)
      by_cases hc : h.reported_head > a
      · simp [hc]
      · simp [hc]; omega
    · exact ih _ h hmt

theorem foldl_head_eq_or_mem :
    ∀ (l : List HeadResult) (a : Nat),
    l.foldl (fun acc h => if h.reported_head > acc then h.reported_head else acc) a = a ∨
    ∃ h ∈ l,
      l.foldl (fun acc h => if h.reported_head > acc then h.reported_head else acc) a =
        h.reported_head := by
  intro l
  induction l with
  | nil => intro a; exact Or.inl rfl
  | cons x t ih =>
    intro a
    rcases ih (if x.reported_head > a then x.reported_head else a) with heq | ⟨h, hm, heq⟩
    · by_cases hc : x.reported_head > a
      · refine Or.inr ⟨x, List.mem_cons_self _ _, ?_⟩
        simpa [List.foldl_cons, hc] using heq
      · refine Or.inl ?_
        simpa [List.foldl_cons, hc] using heq
    · exact Or.inr ⟨h, List.mem_cons_of_mem _ hm, by simpa [List.foldl_cons] using heq⟩

theorem le_highest_of {heads : List HeadResult} {h : HeadResult} (hm : h ∈ heads) :
    h.reported_head ≤ highest_of heads :=
  foldl_head_mem_le heads 0 h hm

theorem highest_of_mem {heads : List HeadResult} (hne : heads ≠ []) :
    ∃ h ∈ heads, highest_of heads = h.reported_head := by
  rcases foldl_head_eq_or_mem heads 0 with heq | hex
  · obtain ⟨h0, hm⟩ := List.exists_mem_of_ne_nil heads hne
    refine ⟨h0, hm, ?_⟩
    have h1 : h0.reported_head ≤ highest_of heads := le_highest_of hm
    have h2 : highest_of heads = 0 := heq
    omega
  · exact hex

theorem highest_of_nil : highest_of [] = 0 := rfl

theorem eq_range_map {α : Type} [Inhabited α] {l : List α} {n : Nat} {g : Nat → α}
    (hlen : l.length = n) (hchar : ∀ i, i < n → l.getD i default = g i) :
    l = (List.range n).map g := by
  apply List.ext_getElem
  · simp [hlen]
  · intro i h1 h2
    have hi : i < n := by simpa [hlen] using h1
    have hgd := hchar i hi
    rw [getD_eq_get l default h1, List.get_eq_getElem] at hgd
    simp only [List.getElem_map, List.getElem_range]
    exact hgd

theorem filter_arbitrated {p : Nat → Bool} {b : Bool} {l indexed' : List Rpc}
    {heads : List HeadResult} (q : Rpc → Bool)
    (hq : ∀ r, q (setFlag b r) = false)
    (hlen : indexed'.length = l.length)
    (hchar : ∀ i, indexed'.getD i default =
      if hits p heads i then setFlag b (l.getD i default) else l.getD i default) :
    indexed'.filter q =
      ((List.range l.length).filter
        (fun i => !(hits p heads i) && q (l.getD i default))).map
        (fun i => l.getD i default) := by
  have hmap : indexed' = (List.range l.length).map
      (fun i => if hits p heads i then setFlag b (l.getD i default) else l.getD i default) :=
    eq_range_map hlen (fun i _ => hchar i)
  rw [hmap, List.filter_map]
  rw [List.filter_congr (q := fun i => !(hits p heads i) && q (l.getD i default)) ?hcong]
  case hcong =>
    intro i _
    by_cases hh : hits p heads i <;> simp [Function.comp, hh, hq]
  apply List.map_congr_left
  intro i hi
  have hpred := (List.mem_filter.mp hi).2
  have hh : hits p heads i = false := by
    have hsplit := Bool.and_eq_true _ _ |>.mp hpred
    simpa using hsplit.1
  simp [hh]

theorem make_poverty_eq (rl pl : List Rpc) (heads : List HeadResult)
    (hin : ∀ h ∈ heads, h.rpc_list_index < rl.length) :
    make_poverty rl pl heads = some (
      ((List.range rl.length).filter
        (fun i => !(hits (fun rep => decide (rep < highest_of heads)) heads i) &&
          !(rl.getD i default).status.is_erroring)).map (fun i => rl.getD i default),
      pl ++ clones (fun rep => decide (rep < highest_of heads)) true rl heads,
      highest_of heads) := by
  obtain ⟨indexed', heq, hlen, hchar⟩ :=
    arbitrate_spec (fun rep => decide (rep < highest_of heads)) true heads rl pl
      (fun h hm _ => hin h hm)
  have hfil := filter_arbitrated (fun r => !r.status.is_erroring)
    (fun r => by simp [setFlag]) hlen hchar
  simp only [make_poverty]
  rw [heq, Option.map_some', hfil]

theorem escape_poverty_eq (rl pl : List Rpc) (heads : List HeadResult) (agreed : Nat)
    (hin : ∀ h ∈ heads, h.rpc_list_index < pl.length) :
    escape_poverty rl pl heads agreed = some (
      rl ++ clones (fun rep => decide (agreed ≤ rep)) false pl heads,
      ((List.range pl.length).filter
        (fun i => !(hits (fun rep => decide (agreed ≤ rep)) heads i) &&
          (pl.getD i default).status.is_erroring)).map (fun i => pl.getD i default)) := by
  obtain ⟨indexed', heq, hlen, hchar⟩ :=
    arbitrate_spec (fun rep => decide (agreed ≤ rep)) false heads pl rl
      (fun h hm _ => hin h hm)
  have hfil := filter_arbitrated (fun r => r.status.is_erroring)
    (fun r => by simp [setFlag]) hlen hchar
  simp only [escape_poverty]
  rw [heq, Option.map_some', hfil]

theorem filter_length_partition {α : Type} (p : α → Bool) (l : List α) :
    (l.filter p).length + (l.filter (fun a => !(p a))).length = l.length := by
  induction l with
  | nil => rfl
  | cons x t ih =>
    by_cases hx : p x = true
    · simp [List.filter_cons, hx]
      omega
    · have hx' : p x = false := by simpa using hx
      simp [List.filter_cons, hx']
      omega

theorem hits_self {p : Nat → Bool} {heads : List HeadResult}
    (hnodup : (heads.map HeadResult.rpc_list_index).Nodup)
    {h : HeadResult} (hm : h ∈ heads) :
    hits p heads h.rpc_list_index = p h.reported_head := by
  by_cases hp : p h.reported_head = true
  · rw [hp]
    exact List.any_eq_true.mpr ⟨h, hm, by simp [hp]⟩
  · have hp' : p h.reported_head = false := by simpa using hp
    rw [hp']
    apply List.any_eq_false.mpr
    intro h' hm'
    intro hcond
    have hsplit := Bool.and_eq_true _ _ |>.mp hcond
    have hidx : h'.rpc_list_index = h.rpc_list_index := by simpa using hsplit.1
    have : h' = h := List.inj_on_of_nodup_map hnodup hm' hm hidx
    rw [this] at hsplit
    rw [hp'] at hsplit
    exact absurd hsplit.2 (by simp)

theorem idx_lt_of_perm {heads : List HeadResult} {n : Nat}
    (hperm : (heads.map HeadResult.rpc_list_index).Perm (List.range n)) :
    ∀ h ∈ heads, h.rpc_list_index < n := by
  intro h hm
  have : h.rpc_list_index ∈ List.range n :=
    hperm.mem_iff.mp (List.mem_map_of_mem _ hm)
  exact List.mem_range.mp this

theorem exists_result_of_perm {heads : List HeadResult} {n : Nat}
    (hperm : (heads.map HeadResult.rpc_list_index).Perm (List.range n)) :
    ∀ i, i < n → ∃ h ∈ heads, h.rpc_list_index = i := by
  intro i hi
  have : i ∈ heads.map HeadResult.rpc_list_index :=
    hperm.symm.mem_iff.mp (List.mem_range.mpr hi)
  obtain ⟨h, hm, heq⟩ := List.mem_map.mp this
  exact ⟨h, hm, heq⟩

theorem nodup_of_perm_range {heads : List HeadResult} {n : Nat}
    (hperm : (heads.map HeadResult.rpc_list_index).Perm (List.range n)) :
    (heads.map HeadResult.rpc_list_index).Nodup :=
  hperm.nodup_iff.mpr (List.nodup_range n)

theorem length_filter_hits_eq (p : Nat → Bool) {heads : List HeadResult} {n : Nat}
    (hperm : (heads.map HeadResult.rpc_list_index).Perm (List.range n)) :
    ((List.range n).filter (hits p heads)).length =
      (heads.filter (fun h => p h.reported_head)).length := by
  have hnodup := nodup_of_perm_range hperm
  have h1 : ((List.range n).filter (hits p heads)).length =
      ((heads.map HeadResult.rpc_list_index).filter (hits p heads)).length :=
    ((hperm.symm).filter _).length_eq
  rw [h1, List.filter_map, List.length_map]
  congr 1
  apply List.filter_congr
  intro h hm
  show hits p heads h.rpc_list_index = p h.reported_head
  exact hits_self hnodup hm

theorem make_poverty_count {rl pl : List Rpc} {heads : List HeadResult}
    (hperm : (heads.map HeadResult.rpc_list_index).Perm (List.range rl.length))
    {rl' pl' : List Rpc} {agreed : Nat}
    (heq : make_poverty rl pl heads = some (rl', pl', agreed)) :
    rl'.length + pl'.length +
      ((List.range rl.length).filter
        (fun i => (rl.getD i default).status.is_erroring &&
          !(hits (fun rep => decide (rep < highest_of heads)) heads i))).length
      = rl.length + pl.length := by
  have hin := idx_lt_of_perm hperm
  rw [make_poverty_eq rl pl heads hin] at heq
  simp only [Option.some.injEq, Prod.mk.injEq] at heq
  obtain ⟨hrl, hpl, -⟩ := heq
  rw [← hrl, ← hpl]
  rw [List.length_map, List.length_append]
  have hc : (clones (fun rep => decide (rep < highest_of heads)) true rl heads).length =
      ((List.range rl.length).filter
        (hits (fun rep => decide (rep < highest_of heads)) heads)).length := by
    unfold clones
    rw [List.length_map]
    exact (length_filter_hits_eq (fun rep => decide (rep < highest_of heads)) hperm).symm
  rw [hc]
  have hpart1 := filter_length_partition
    (hits (fun rep => decide (rep < highest_of heads)) heads) (List.range rl.length)
  have hsplit := filter_length_partition
    (fun i => (rl.getD i default).status.is_erroring)
    ((List.range rl.length).filter
      (fun i => !(hits (fun rep => decide (rep < highest_of heads)) heads i)))
  rw [List.filter_filter, List.filter_filter] at hsplit
  have hcomm : (List.range rl.length).filter
      (fun i => !(hits (fun rep => decide (rep < highest_of heads)) heads i) &&
        !(rl.getD i default).status.is_erroring) =
      (List.range rl.length).filter
      (fun i => !(rl.getD i default).status.is_erroring &&
        !(hits (fun rep => decide (rep < highest_of heads)) heads i)) :=
    List.filter_congr (fun i _ => Bool.and_comm _ _)
  rw [hcomm]
  have hlr := (List.length_range rl.length).symm
  omega

theorem make_poverty_agreed {rl pl : List Rpc} {heads : List HeadResult}
    {out : List Rpc × List Rpc × Nat} (h : make_poverty rl pl heads = some out) :
    out.2.2 = highest_of heads := by
  simp only [make_poverty] at h
  obtain ⟨pools, -, hf⟩ := Option.map_eq_some'.mp h
  rw [← hf]

theorem map_getD_range {α : Type} [Inhabited α] (l : List α) :
    (List.range l.length).map (fun i => l.getD i default) = l :=
  (eq_range_map rfl (fun _ _ => rfl)).symm

theorem bfilter_nil_of_flags {rl : List Rpc} (q : Nat → Bool)
    (hflag : ∀ r ∈ rl, r.status.is_erroring = false) :
    (List.range rl.length).filter
      (fun i => (rl.getD i default).status.is_erroring && q i) = [] := by
  apply List.filter_eq_nil_iff.mpr
  intro i hi
  have hi' := List.mem_range.mp hi
  have hfl := hflag _ (getD_mem default hi')
  rw [List.getD_eq_getElem?_getD] at hfl
  simp [hfl]

/-!
## Claim theorems
-/

/-- C2: For every poll-result set, the agreed head computed and returned by
`make_poverty` is the maximum of the `reported_head` values when the set is
non-empty — an upper bound of all reported heads that is itself one of
them — and equals `0` when the set is empty. -/
theorem make_poverty_agreed_is_max (rl pl : List Rpc) (heads : List HeadResult)
    (out : List Rpc × List Rpc × Nat)
    (h : make_poverty rl pl heads = some out) :
    (∀ hd ∈ heads, hd.reported_head ≤ out.2.2) ∧
    (heads ≠ [] → ∃ hd ∈ heads, out.2.2 = hd.reported_head) ∧
    (heads = [] → out.2.2 = 0) := by
  have hag : out.2.2 = highest_of heads := make_poverty_agreed h
  refine ⟨?_, ?_, ?_⟩
  · intro hd hm
    rw [hag]
    exact le_highest_of hm
  · intro hne
    rw [hag]
    exact highest_of_mem hne
  · intro he
    rw [hag, he]
    rfl

theorem make_poverty_agreed_is_max_witness :
    (make_poverty [⟨"a", ⟨false⟩⟩] [] [⟨0, 7⟩] = some ([⟨"a", ⟨false⟩⟩], [], 7)) ∧
    ((∀ hd ∈ ([⟨0, 7⟩] : List HeadResult),
        hd.reported_head ≤ (([⟨"a", ⟨false⟩⟩], [], 7) : List Rpc × List Rpc × Nat).2.2) ∧
     (([⟨0, 7⟩] : List HeadResult) ≠ [] → ∃ hd ∈ ([⟨0, 7⟩] : List HeadResult),
        (([⟨"a", ⟨false⟩⟩], [], 7) : List Rpc × List Rpc × Nat).2.2 = hd.reported_head) ∧
     (([⟨0, 7⟩] : List HeadResult) = [] →
        (([⟨"a", ⟨false⟩⟩], [], 7) : List Rpc × List Rpc × Nat).2.2 = 0)) :=
  ⟨by decide, make_poverty_agreed_is_max [⟨"a", ⟨false⟩⟩] [] [⟨0, 7⟩]
    ([⟨"a", ⟨false⟩⟩], [], 7) (by decide)⟩

/-- C6: For every drop notification whose index is not a valid position in
the active pool, `send_dropped_to_poverty` leaves both pools unchanged but
still invokes the subscription migration, and the listener still sends the
reconnect signal. -/
theorem send_dropped_invalid_index (rl pl : List Rpc) (mig : Except String Unit)
    (idx : Nat) (h : rl.length ≤ idx) :
    (send_dropped_to_poverty rl pl mig idx).rpc_list = rl ∧
    (send_dropped_to_poverty rl pl mig idx).poverty_list = pl ∧
    (send_dropped_to_poverty rl pl mig idx).migration_invoked = true ∧
    (dropped_listener_step rl pl mig idx).rpc_list = rl ∧
    (dropped_listener_step rl pl mig idx).poverty_list = pl ∧
    (dropped_listener_step rl pl mig idx).reconnect_sent = true := by
  have hnone : rl[idx]? = none := List.getElem?_eq_none_iff.mpr h
  simp [send_dropped_to_poverty, dropped_listener_step, List.get?_eq_getElem?, hnone]

theorem send_dropped_invalid_index_witness :
    (([⟨"a", ⟨false⟩⟩] : List Rpc).length ≤ 5) ∧
    ((send_dropped_to_poverty [⟨"a", ⟨false⟩⟩] [] (Except.ok ()) 5).rpc_list =
        [⟨"a", ⟨false⟩⟩] ∧
     (send_dropped_to_poverty [⟨"a", ⟨false⟩⟩] [] (Except.ok ()) 5).poverty_list = [] ∧
     (send_dropped_to_poverty [⟨"a", ⟨false⟩⟩] [] (Except.ok ()) 5).migration_invoked = true ∧
     (dropped_listener_step [⟨"a", ⟨false⟩⟩] [] (Except.ok ()) 5).rpc_list =
        [⟨"a", ⟨false⟩⟩] ∧
     (dropped_listener_step [⟨"a", ⟨false⟩⟩] [] (Except.ok ()) 5).poverty_list = [] ∧
     (dropped_listener_step [⟨"a", ⟨false⟩⟩] [] (Except.ok ()) 5).reconnect_sent = true) :=
  ⟨by decide, send_dropped_invalid_index _ _ _ _ (by decide)⟩

/-- C7: `head_check` on an empty pool returns an empty result set without
error, and an individual node's fetch failure (`some none`) or timeout
(`none`) is never propagated as an error: every pool yields an `ok` result
set, index-correlated, in which each entry's head is the normalization of
that node's outcome, failure and timeout both normalizing to `0`. -/
theorem head_check_no_error :
    (∀ responses, head_check [] responses = Except.ok []) ∧
    (∀ (rl : List Rpc) responses, ∃ heads,
      head_check rl responses = Except.ok heads ∧
      heads.length = rl.length ∧
      ∀ hr ∈ heads, hr.reported_head = normalize_response (responses hr.rpc_list_index)) ∧
    normalize_response none = 0 ∧
    normalize_response (some none) = 0 := by
  refine ⟨?_, ?_, rfl, rfl⟩
  · intro responses
    rfl
  · intro rl responses
    by_cases hlen : rl.length = 0
    · refine ⟨[], ?_, by simp [hlen], by simp⟩
      simp [head_check, hlen]
    · refine ⟨(List.range rl.length).map (fun i => ⟨i, normalize_response (responses i)⟩),
        ?_, by simp, ?_⟩
      · simp [head_check, hlen]
      · intro hr hm
        obtain ⟨i, -, hieq⟩ := List.mem_map.mp hm
        rw [← hieq]

/-- C10: When the agreed head passed to `escape_poverty` is `0`, every
poverty-pool node with a poll result is promoted to the active pool —
including unresponsive nodes whose result is the sentinel `0` — because
`reported_head ≥ 0` always holds: the active pool gains one cleared clone
per poll result. -/
theorem escape_poverty_agreed_zero (rl pl : List Rpc) (heads : List HeadResult)
    (hin : ∀ h ∈ heads, h.rpc_list_index < pl.length) :
    ∃ pl', escape_poverty rl pl heads 0 = some
      (rl ++ heads.map (fun h => setFlag false (pl.getD h.rpc_list_index default)), pl') := by
  have heq := escape_poverty_eq rl pl heads 0 hin
  have hcl : clones (fun rep => decide (0 ≤ rep)) false pl heads =
      heads.map (fun h => setFlag false (pl.getD h.rpc_list_index default)) := by
    unfold clones
    rw [List.filter_eq_self.mpr (fun h _ => by simp)]
  rw [hcl] at heq
  exact ⟨_, heq⟩

theorem escape_poverty_agreed_zero_witness :
    (∀ h ∈ ([⟨0, 0⟩] : List HeadResult),
      h.rpc_list_index < ([⟨"a", ⟨true⟩⟩] : List Rpc).length) ∧
    (∃ pl', escape_poverty [] [⟨"a", ⟨true⟩⟩] [⟨0, 0⟩] 0 = some
      ([] ++ ([⟨0, 0⟩] : List HeadResult).map
        (fun h => setFlag false (([⟨"a", ⟨true⟩⟩] : List Rpc).getD h.rpc_list_index default)),
       pl')) :=
  ⟨by decide, escape_poverty_agreed_zero _ _ _ (by decide)⟩

/-- C8: A poverty-pool node whose erroring flag is false (as inserted by
`send_dropped_to_poverty`, which clones without setting the flag) and whose
poll result reports less than the agreed head is removed from the poverty
pool by the final retain without being appended to the active pool: the
active pool gains exactly the clones of indices that reported at least the
agreed head — which excludes this node's index — and the node itself is
absent from the resulting poverty pool, so it disappears from both
pools. -/
theorem escape_poverty_unflagged_lost (rl pl : List Rpc) (heads : List HeadResult)
    (agreed : Nat) (i : Nat)
    (hnodup : (heads.map HeadResult.rpc_list_index).Nodup)
    (hin : ∀ h ∈ heads, h.rpc_list_index < pl.length)
    (hflag : (pl.getD i default).status.is_erroring = false)
    (h0 : HeadResult) (hm : h0 ∈ heads) (hidx : h0.rpc_list_index = i)
    (hlow : h0.reported_head < agreed) :
    ∃ rl' pl', escape_poverty rl pl heads agreed = some (rl', pl') ∧
      pl.getD i default ∉ pl' ∧
      rl' = rl ++ clones (fun rep => decide (agreed ≤ rep)) false pl heads ∧
      i ∉ (heads.filter (fun h => decide (agreed ≤ h.reported_head))).map
            HeadResult.rpc_list_index := by
  have heq := escape_poverty_eq rl pl heads agreed hin
  refine ⟨_, _, heq, ?_, rfl, ?_⟩
  · intro hmem
    obtain ⟨j, hj, hjeq⟩ := List.mem_map.mp hmem
    have hpred := (List.mem_filter.mp hj).2
    have hflagj := (Bool.and_eq_true _ _ |>.mp hpred).2
    rw [hjeq, hflag] at hflagj
    exact Bool.false_ne_true hflagj
  · intro hmem
    obtain ⟨h', hh', hidx'⟩ := List.mem_map.mp hmem
    have hm' := List.mem_filter.mp hh'
    have hge : agreed ≤ h'.reported_head := by simpa using hm'.2
    have heqh : h' = h0 :=
      List.inj_on_of_nodup_map hnodup hm'.1 hm (by rw [hidx', hidx])
    rw [heqh] at hge
    omega

theorem escape_poverty_unflagged_lost_witness :
    (([⟨0, 1⟩] : List HeadResult).map HeadResult.rpc_list_index).Nodup ∧
    (∀ h ∈ ([⟨0, 1⟩] : List HeadResult),
      h.rpc_list_index < ([⟨"a", ⟨false⟩⟩] : List Rpc).length) ∧
    (([⟨"a", ⟨false⟩⟩] : List Rpc).getD 0 default).status.is_erroring = false ∧
    (⟨0, 1⟩ : HeadResult) ∈ ([⟨0, 1⟩] : List HeadResult) ∧
    (1 : Nat) < 5 ∧
    (∃ rl' pl', escape_poverty [] [⟨"a", ⟨false⟩⟩] [⟨0, 1⟩] 5 = some (rl', pl') ∧
      ([⟨"a", ⟨false⟩⟩] : List Rpc).getD 0 default ∉ pl' ∧
      rl' = [] ++ clones (fun rep => decide (5 ≤ rep)) false [⟨"a", ⟨false⟩⟩] [⟨0, 1⟩] ∧
      0 ∉ (([⟨0, 1⟩] : List HeadResult).filter
            (fun h => decide (5 ≤ h.reported_head))).map HeadResult.rpc_list_index) :=
  ⟨by decide, by decide, by decide, by decide, by decide,
    escape_poverty_unflagged_lost [] [⟨"a", ⟨false⟩⟩] [⟨0, 1⟩] 5 0 (by decide) (by decide)
      (by decide) ⟨0, 1⟩ (by decide) rfl (by decide)⟩

/-- C1 (amended): For every active pool whose nodes all enter with the
erroring flag clear, and every poll-result set with one result per node and
indices in range, after `make_poverty` every node remaining in the active
pool is one whose result equals the agreed head; every demoted node's
clone is present in the poverty pool with its erroring flag SET (the flag
is set before the clone is pushed, not cleared as the original claim
stated); every poverty-pool entry is either pre-existing or flagged; and
the combined membership count of the two pools is unchanged. -/
theorem make_poverty_partition (rl pl : List Rpc) (heads : List HeadResult)
    (hperm : (heads.map HeadResult.rpc_list_index).Perm (List.range rl.length))
    (hflag : ∀ r ∈ rl, r.status.is_erroring = false) :
    ∃ rl' pl' agreed, make_poverty rl pl heads = some (rl', pl', agreed) ∧
      (∀ r ∈ rl', ∃ h ∈ heads, h.reported_head = agreed ∧
        r = rl.getD h.rpc_list_index default) ∧
      (∀ h ∈ heads, h.reported_head < agreed →
        setFlag true (rl.getD h.rpc_list_index default) ∈ pl') ∧
      (∀ r ∈ pl', r ∈ pl ∨ r.status.is_erroring = true) ∧
      rl'.length + pl'.length = rl.length + pl.length := by
  have hin := idx_lt_of_perm hperm
  have heq := make_poverty_eq rl pl heads hin
  refine ⟨_, _, _, heq, ?_, ?_, ?_, ?_⟩
  · intro r hr
    obtain ⟨i, hi, hieq⟩ := List.mem_map.mp hr
    have hif := List.mem_filter.mp hi
    have hirange := List.mem_range.mp hif.1
    have hnohit : hits (fun rep => decide (rep < highest_of heads)) heads i = false := by
      have := (Bool.and_eq_true _ _ |>.mp hif.2).1
      simpa using this
    obtain ⟨h, hm, hidx⟩ := exists_result_of_perm hperm i hirange
    refine ⟨h, hm, ?_, by rw [hidx]; exact hieq.symm⟩
    have hle := le_highest_of hm
    have hnlt : ¬ h.reported_head < highest_of heads := by
      intro hlt
      have hcon : hits (fun rep => decide (rep < highest_of heads)) heads i = true :=
        List.any_eq_true.mpr ⟨h, hm, by simp [hidx, hlt]⟩
      rw [hcon] at hnohit
      exact absurd hnohit (by simp)
    omega
  · intro h hm hlt
    apply List.mem_append_right
    unfold clones
    exact List.mem_map.mpr ⟨h, List.mem_filter.mpr ⟨hm, by simp [hlt]⟩, rfl⟩
  · intro r hr
    rcases List.mem_append.mp hr with hold | hnew
    · exact Or.inl hold
    · right
      unfold clones at hnew
      obtain ⟨h, -, hre⟩ := List.mem_map.mp hnew
      rw [← hre]
      rfl
  · have hcount := make_poverty_count hperm heq
    rw [bfilter_nil_of_flags _ hflag] at hcount
    simpa using hcount

/-- C1 counterexample: with active pool `[a (erroring), b, c]` and results
`(0 ↦ 10, 1 ↦ 10, 2 ↦ 5)` the agreed head is `10`; node `c` is demoted and
its poverty-pool entry carries `is_erroring = true`, not a cleared flag;
node `a` is removed from the active pool by the final retain but is absent
from the poverty pool; and the combined count drops from `3` to `2`. -/
theorem make_poverty_partition_cex :
    make_poverty [⟨"a", ⟨true⟩⟩, ⟨"b", ⟨false⟩⟩, ⟨"c", ⟨false⟩⟩] []
        [⟨0, 10⟩, ⟨1, 10⟩, ⟨2, 5⟩] =
      some ([⟨"b", ⟨false⟩⟩], [⟨"c", ⟨true⟩⟩], 10) ∧
    (1 + 1 ≠ 3 + 0) ∧
    ((⟨"c", ⟨true⟩⟩ : Rpc).status.is_erroring = true) ∧
    ((⟨"a", ⟨true⟩⟩ : Rpc) ∉ ([⟨"c", ⟨true⟩⟩] : List Rpc)) := by
  refine ⟨by decide, by decide, by decide, by decide⟩

theorem make_poverty_partition_witness :
    ((([⟨0, 5⟩, ⟨1, 10⟩] : List HeadResult).map HeadResult.rpc_list_index).Perm
      (List.range ([⟨"a", ⟨false⟩⟩, ⟨"b", ⟨false⟩⟩] : List Rpc).length)) ∧
    (∀ r ∈ ([⟨"a", ⟨false⟩⟩, ⟨"b", ⟨false⟩⟩] : List Rpc), r.status.is_erroring = false) ∧
    (∃ rl' pl' agreed,
      make_poverty [⟨"a", ⟨false⟩⟩, ⟨"b", ⟨false⟩⟩] [] [⟨0, 5⟩, ⟨1, 10⟩] =
        some (rl', pl', agreed) ∧
      (∀ r ∈ rl', ∃ h ∈ ([⟨0, 5⟩, ⟨1, 10⟩] : List HeadResult), h.reported_head = agreed ∧
        r = ([⟨"a", ⟨false⟩⟩, ⟨"b", ⟨false⟩⟩] : List Rpc).getD h.rpc_list_index default) ∧
      (∀ h ∈ ([⟨0, 5⟩, ⟨1, 10⟩] : List HeadResult), h.reported_head < agreed →
        setFlag true (([⟨"a", ⟨false⟩⟩, ⟨"b", ⟨false⟩⟩] : List Rpc).getD
          h.rpc_list_index default) ∈ pl') ∧
      (∀ r ∈ pl', r ∈ ([] : List Rpc) ∨ r.status.is_erroring = true) ∧
      rl'.length + pl'.length =
        ([⟨"a", ⟨false⟩⟩, ⟨"b", ⟨false⟩⟩] : List Rpc).length + ([] : List Rpc).length) :=
  ⟨by decide, by decide,
    make_poverty_partition [⟨"a", ⟨false⟩⟩, ⟨"b", ⟨false⟩⟩] [] [⟨0, 5⟩, ⟨1, 10⟩]
      (by decide) (by decide)⟩

/-- C9 (amended): With one result per node, `make_poverty` preserves the
combined membership count of the two pools IF every active-pool node's
erroring flag is false on entry; and a node whose flag is already true and
whose result equals the agreed head is removed from the active pool by the
final retain without being appended to the poverty pool, strictly
decreasing the combined count.  (The original "if and only if" fails: a
pre-flagged node that is also demoted is pushed to the poverty pool, so
the count can be preserved even when a flag was set on entry.) -/
theorem make_poverty_count_flags (rl pl : List Rpc) (heads : List HeadResult)
    (hperm : (heads.map HeadResult.rpc_list_index).Perm (List.range rl.length))
    (rl' pl' : List Rpc) (agreed : Nat)
    (heq : make_poverty rl pl heads = some (rl', pl', agreed)) :
    ((∀ r ∈ rl, r.status.is_erroring = false) →
      rl'.length + pl'.length = rl.length + pl.length) ∧
    (∀ i, i < rl.length → (rl.getD i default).status.is_erroring = true →
      (∃ h ∈ heads, h.rpc_list_index = i ∧ h.reported_head = agreed) →
      rl'.length + pl'.length < rl.length + pl.length) := by
  have hnodup := nodup_of_perm_range hperm
  have hcount := make_poverty_count hperm heq
  have hag : agreed = highest_of heads := by
    have := make_poverty_agreed heq
    simpa using this
  constructor
  · intro hflag
    rw [bfilter_nil_of_flags _ hflag] at hcount
    simpa using hcount
  · rintro i hi hfl ⟨h0, hm0, hidx0, hrep0⟩
    have hnohit : hits (fun rep => decide (rep < highest_of heads)) heads i = false := by
      apply List.any_eq_false.mpr
      intro h hm hcond
      have hsplit := Bool.and_eq_true _ _ |>.mp hcond
      have hidx : h.rpc_list_index = i := by simpa using hsplit.1
      have hlt : h.reported_head < highest_of heads := by simpa using hsplit.2
      have hh0 : h = h0 := List.inj_on_of_nodup_map hnodup hm hm0 (by rw [hidx, hidx0])
      rw [hh0, hrep0, ← hag] at hlt
      omega
    have hmem : i ∈ (List.range rl.length).filter
        (fun i => (rl.getD i default).status.is_erroring &&
          !(hits (fun rep => decide (rep < highest_of heads)) heads i)) := by
      apply List.mem_filter.mpr
      refine ⟨List.mem_range.mpr hi, ?_⟩
      rw [hfl, hnohit]
      rfl
    have hpos := List.length_pos.mpr (List.ne_nil_of_mem hmem)
    omega

/-- C9 counterexample: active pool `[a (erroring), b]` with results
`(0 ↦ 1, 1 ↦ 2)`: node `a` is demoted (it was already flagged) and pushed
to the poverty pool, so the combined count `2` is preserved even though not
every entering flag was false — refuting the "only if" direction. -/
theorem make_poverty_count_flags_cex :
    make_poverty [⟨"a", ⟨true⟩⟩, ⟨"b", ⟨false⟩⟩] [] [⟨0, 1⟩, ⟨1, 2⟩] =
      some ([⟨"b", ⟨false⟩⟩], [⟨"a", ⟨true⟩⟩], 2) ∧
    (1 + 1 = 2 + 0) ∧
    ¬ (∀ r ∈ ([⟨"a", ⟨true⟩⟩, ⟨"b", ⟨false⟩⟩] : List Rpc),
        r.status.is_erroring = false) := by
  refine ⟨by decide, by decide, by decide⟩

theorem make_poverty_count_flags_witness :
    ((([⟨0, 3⟩] : List HeadResult).map HeadResult.rpc_list_index).Perm
      (List.range ([⟨"a", ⟨false⟩⟩] : List Rpc).length)) ∧
    (make_poverty [⟨"a", ⟨false⟩⟩] [] [⟨0, 3⟩] = some ([⟨"a", ⟨false⟩⟩], [], 3)) ∧
    (((∀ r ∈ ([⟨"a", ⟨false⟩⟩] : List Rpc), r.status.is_erroring = false) →
      ([⟨"a", ⟨false⟩⟩] : List Rpc).length + ([] : List Rpc).length =
        ([⟨"a", ⟨false⟩⟩] : List Rpc).length + ([] : List Rpc).length) ∧
    (∀ i, i < ([⟨"a", ⟨false⟩⟩] : List Rpc).length →
      (([⟨"a", ⟨false⟩⟩] : List Rpc).getD i default).status.is_erroring = true →
      (∃ h ∈ ([⟨0, 3⟩] : List HeadResult), h.rpc_list_index = i ∧ h.reported_head = 3) →
      ([⟨"a", ⟨false⟩⟩] : List Rpc).length + ([] : List Rpc).length <
        ([⟨"a", ⟨false⟩⟩] : List Rpc).length + ([] : List Rpc).length)) :=
  ⟨by decide, by decide,
    make_poverty_count_flags [⟨"a", ⟨false⟩⟩] [] [⟨0, 3⟩] (by decide)
      [⟨"a", ⟨false⟩⟩] [] 3 (by decide)⟩

/-- C5: With one result per node (indices in range) and all entering flags
clear, `make_poverty` never demotes a node whose result equals the agreed
head — such a node, including the one defining the agreed head, remains in
the active pool — and for an active pool of size 0 or 1 it demotes no node
regardless of the reported value, including 0: both pools are left
unchanged. -/
theorem make_poverty_ties_kept (rl pl : List Rpc) (heads : List HeadResult)
    (hperm : (heads.map HeadResult.rpc_list_index).Perm (List.range rl.length))
    (hflag : ∀ r ∈ rl, r.status.is_erroring = false) :
    ∃ rl' pl' agreed, make_poverty rl pl heads = some (rl', pl', agreed) ∧
      (∀ h ∈ heads, h.reported_head = agreed →
        rl.getD h.rpc_list_index default ∈ rl') ∧
      (rl.length ≤ 1 → rl' = rl ∧ pl' = pl) := by
  have hin := idx_lt_of_perm hperm
  have hnodup := nodup_of_perm_range hperm
  have heq := make_poverty_eq rl pl heads hin
  refine ⟨_, _, _, heq, ?_, ?_⟩
  · intro h hm hrep
    apply List.mem_map.mpr
    refine ⟨h.rpc_list_index, ?_, rfl⟩
    apply List.mem_filter.mpr
    refine ⟨List.mem_range.mpr (hin h hm), ?_⟩
    have hhit : hits (fun rep => decide (rep < highest_of heads)) heads h.rpc_list_index =
        decide (h.reported_head < highest_of heads) := hits_self hnodup hm
    have hd : decide (h.reported_head < highest_of heads) = false := by
      rw [hrep]
      simp
    have hfl := hflag _ (getD_mem default (hin h hm))
    rw [hhit, hd, hfl]
    rfl
  · intro hlen
    rcases Nat.le_one_iff_eq_zero_or_eq_one.mp hlen with hn | hn
    · have hrl : rl = [] := List.length_eq_zero.mp hn
      have hmapnil : heads.map HeadResult.rpc_list_index = [] := by
        have h2 := hperm
        rw [hn] at h2
        simpa using h2.eq_nil
      have hheads : heads = [] := List.map_eq_nil_iff.mp hmapnil
      subst hheads
      subst hrl
      exact ⟨rfl, by simp [clones_nil]⟩
    · have hl1 : heads.length = 1 := by
        have h2 := hperm.length_eq
        rw [List.length_map, List.length_range] at h2
        omega
      obtain ⟨h0, hh⟩ := List.length_eq_one.mp hl1
      subst hh
      have hhi : highest_of [h0] = h0.reported_head := by
        unfold highest_of
        simp only [List.foldl_cons, List.foldl_nil]
        by_cases hc : h0.reported_head > 0
        · simp [hc]
        · simp [hc]
          omega
      constructor
      · have hfe : (List.range rl.length).filter
            (fun i => !(hits (fun rep => decide (rep < highest_of [h0])) [h0] i) &&
              !(rl.getD i default).status.is_erroring) = List.range rl.length := by
          apply List.filter_eq_self.mpr
          intro i hi
          have hi' := List.mem_range.mp hi
          have hfl := hflag _ (getD_mem default hi')
          have hhit : hits (fun rep => decide (rep < highest_of [h0])) [h0] i = false := by
            simp [hits, hhi]
          rw [hhit, hfl]
          rfl
        rw [hfe, map_getD_range]
      · have hcl : clones (fun rep => decide (rep < highest_of [h0])) true rl [h0] = [] := by
          unfold clones
          rw [List.filter_eq_nil_iff.mpr ?hnone]
          · rfl
          case hnone =>
            intro h hm
            have : h = h0 := by simpa using hm
            subst this
            simp [hhi]
        rw [hcl, List.append_nil]

theorem make_poverty_ties_kept_witness :
    ((([⟨0, 0⟩] : List HeadResult).map HeadResult.rpc_list_index).Perm
      (List.range ([⟨"a", ⟨false⟩⟩] : List Rpc).length)) ∧
    (∀ r ∈ ([⟨"a", ⟨false⟩⟩] : List Rpc), r.status.is_erroring = false) ∧
    (∃ rl' pl' agreed,
      make_poverty [⟨"a", ⟨false⟩⟩] [] [⟨0, 0⟩] = some (rl', pl', agreed) ∧
      (∀ h ∈ ([⟨0, 0⟩] : List HeadResult), h.reported_head = agreed →
        ([⟨"a", ⟨false⟩⟩] : List Rpc).getD h.rpc_list_index default ∈ rl') ∧
      (([⟨"a", ⟨false⟩⟩] : List Rpc).length ≤ 1 →
        rl' = [⟨"a", ⟨false⟩⟩] ∧ pl' = ([] : List Rpc))) :=
  ⟨by decide, by decide,
    make_poverty_ties_kept [⟨"a", ⟨false⟩⟩] [] [⟨0, 0⟩] (by decide) (by decide)⟩

/-- C3 (amended): After `escape_poverty` runs with agreed head `T` on a
poverty pool whose nodes all enter with the erroring flag SET (as
`make_poverty` leaves them) and one result per node with indices in range,
every poverty-pool node whose result reported at least `T` is present in
the active pool as a clone with its erroring flag cleared, and the poverty
pool retains exactly the nodes whose result reported less than `T`.  (For a
node entering with the flag clear the original claim fails: the final
retain drops it even when it reported less than `T`.) -/
theorem escape_poverty_partition (rl pl : List Rpc) (heads : List HeadResult)
    (agreed : Nat)
    (hperm : (heads.map HeadResult.rpc_list_index).Perm (List.range pl.length))
    (hflag : ∀ r ∈ pl, r.status.is_erroring = true) :
    ∃ rl' pl', escape_poverty rl pl heads agreed = some (rl', pl') ∧
      (∀ h ∈ heads, agreed ≤ h.reported_head →
        setFlag false (pl.getD h.rpc_list_index default) ∈ rl' ∧
        (setFlag false (pl.getD h.rpc_list_index default)).status.is_erroring = false) ∧
      (∀ r, r ∈ pl' ↔ ∃ h ∈ heads, h.reported_head < agreed ∧
        r = pl.getD h.rpc_list_index default) := by
  have hin := idx_lt_of_perm hperm
  have hnodup := nodup_of_perm_range hperm
  have heq := escape_poverty_eq rl pl heads agreed hin
  refine ⟨_, _, heq, ?_, ?_⟩
  · intro h hm hge
    constructor
    · apply List.mem_append_right
      unfold clones
      exact List.mem_map.mpr ⟨h, List.mem_filter.mpr ⟨hm, by simp [hge]⟩, rfl⟩
    · rfl
  · intro r
    constructor
    · intro hr
      obtain ⟨i, hi, hieq⟩ := List.mem_map.mp hr
      have hif := List.mem_filter.mp hi
      have hirange := List.mem_range.mp hif.1
      have hnohit : hits (fun rep => decide (agreed ≤ rep)) heads i = false := by
        have := (Bool.and_eq_true _ _ |>.mp hif.2).1
        simpa using this
      obtain ⟨h, hm, hidx⟩ := exists_result_of_perm hperm i hirange
      refine ⟨h, hm, ?_, by rw [hidx]; exact hieq.symm⟩
      by_contra hnlt
      have hge : agreed ≤ h.reported_head := Nat.le_of_not_lt hnlt
      have hcon : hits (fun rep => decide (agreed ≤ rep)) heads i = true :=
        List.any_eq_true.mpr ⟨h, hm, by simp [hidx, hge]⟩
      rw [hcon] at hnohit
      exact absurd hnohit (by simp)
    · rintro ⟨h, hm, hlt, hre⟩
      apply List.mem_map.mpr
      refine ⟨h.rpc_list_index, ?_, hre.symm⟩
      apply List.mem_filter.mpr
      refine ⟨List.mem_range.mpr (hin h hm), ?_⟩
      have hhit : hits (fun rep => decide (agreed ≤ rep)) heads h.rpc_list_index =
          decide (agreed ≤ h.reported_head) := hits_self hnodup hm
      have hd : decide (agreed ≤ h.reported_head) = false := by
        simp
        omega
      have hfl := hflag _ (getD_mem default (hin h hm))
      rw [hhit, hd, hfl]
      rfl

/-- C3 counterexample: poverty pool `[a]` with `a.is_erroring = false` (as
inserted by the drop handler), result `(0 ↦ 1)`, agreed head `5`: node `a`
reported `1 < 5`, yet the resulting poverty pool is empty — it does not
retain the nodes that reported below the threshold. -/
theorem escape_poverty_partition_cex :
    escape_poverty [] [⟨"a", ⟨false⟩⟩] [⟨0, 1⟩] 5 = some ([], []) ∧
    (1 : Nat) < 5 ∧
    (⟨"a", ⟨false⟩⟩ : Rpc) ∉ ([] : List Rpc) := by
  refine ⟨by decide, by decide, by decide⟩

theorem escape_poverty_partition_witness :
    ((([⟨0, 2⟩, ⟨1, 9⟩] : List HeadResult).map HeadResult.rpc_list_index).Perm
      (List.range ([⟨"a", ⟨true⟩⟩, ⟨"b", ⟨true⟩⟩] : List Rpc).length)) ∧
    (∀ r ∈ ([⟨"a", ⟨true⟩⟩, ⟨"b", ⟨true⟩⟩] : List Rpc), r.status.is_erroring = true) ∧
    (∃ rl' pl',
      escape_poverty [] [⟨"a", ⟨true⟩⟩, ⟨"b", ⟨true⟩⟩] [⟨0, 2⟩, ⟨1, 9⟩] 5 =
        some (rl', pl') ∧
      (∀ h ∈ ([⟨0, 2⟩, ⟨1, 9⟩] : List HeadResult), 5 ≤ h.reported_head →
        setFlag false (([⟨"a", ⟨true⟩⟩, ⟨"b", ⟨true⟩⟩] : List Rpc).getD
          h.rpc_list_index default) ∈ rl' ∧
        (setFlag false (([⟨"a", ⟨true⟩⟩, ⟨"b", ⟨true⟩⟩] : List Rpc).getD
          h.rpc_list_index default)).status.is_erroring = false) ∧
      (∀ r, r ∈ pl' ↔ ∃ h ∈ ([⟨0, 2⟩, ⟨1, 9⟩] : List HeadResult),
        h.reported_head < 5 ∧
        r = ([⟨"a", ⟨true⟩⟩, ⟨"b", ⟨true⟩⟩] : List Rpc).getD h.rpc_list_index default)) :=
  ⟨by decide, by decide,
    escape_poverty_partition [] [⟨"a", ⟨true⟩⟩, ⟨"b", ⟨true⟩⟩] [⟨0, 2⟩, ⟨1, 9⟩] 5
      (by decide) (by decide)⟩

/-- C4 (amended): Running `make_poverty` a second time with no intervening
change is a no-op — both pools are left exactly as the first run left them
— when the second run uses a fresh poll of the surviving active pool, i.e.
a result set whose indices are in range for the surviving pool and in
which every node again reports the agreed head (which is what every
survivor reported).  (Reusing the first result set verbatim, as the
original claim states, is not a no-op: its indices refer to the old pool
layout, so a survivor can be demoted or the lookup can go out of
bounds.) -/
theorem make_poverty_second_run (rl pl : List Rpc) (heads : List HeadResult)
    (rl1 pl1 : List Rpc) (agreed : Nat) (heads2 : List HeadResult)
    (h1 : make_poverty rl pl heads = some (rl1, pl1, agreed))
    (_hin2 : ∀ h ∈ heads2, h.rpc_list_index < rl1.length)
    (hsame : ∀ h ∈ heads2, h.reported_head = agreed) :
    ∃ agreed2, make_poverty rl1 pl1 heads2 = some (rl1, pl1, agreed2) := by
  have hflag1 : ∀ r ∈ rl1, r.status.is_erroring = false := by
    simp only [make_poverty] at h1
    obtain ⟨pools, -, hf⟩ := Option.map_eq_some'.mp h1
    have hc : pools.1.filter (fun rpc => !rpc.status.is_erroring) = rl1 :=
      congrArg (fun t => t.1) hf
    intro r hr
    rw [← hc] at hr
    have := (List.mem_filter.mp hr).2
    simpa using this
  have hnohit : ∀ h ∈ heads2, (fun rep => decide (rep < highest_of heads2))
      h.reported_head = false := by
    intro h hm
    have hne := List.ne_nil_of_mem hm
    obtain ⟨h', hm', hh'⟩ := highest_of_mem hne
    have he1 := hsame h' hm'
    have he2 := hsame h hm
    simp only [decide_eq_false_iff_not, Nat.not_lt]
    omega
  refine ⟨highest_of heads2, ?_⟩
  simp only [make_poverty]
  rw [arbitrate_no_hit _ _ heads2 rl1 pl1 hnohit, Option.map_some']
  rw [List.filter_eq_self.mpr (fun r hr => by simp [hflag1 r hr])]

/-- C4 counterexample: active pool `[a, b]`, results `(0 ↦ 1, 1 ↦ 2)`: the
first run demotes `a`, leaving active `[b]`, poverty `[a]`.  Re-running
with the SAME result set demotes `b` (index 0 now denotes `b`), leaving
active `[]` — the second run is not a no-op. -/
theorem make_poverty_second_run_cex :
    make_poverty [⟨"a", ⟨false⟩⟩, ⟨"b", ⟨false⟩⟩] [] [⟨0, 1⟩, ⟨1, 2⟩] =
      some ([⟨"b", ⟨false⟩⟩], [⟨"a", ⟨true⟩⟩], 2) ∧
    make_poverty [⟨"b", ⟨false⟩⟩] [⟨"a", ⟨true⟩⟩] [⟨0, 1⟩, ⟨1, 2⟩] =
      some ([], [⟨"a", ⟨true⟩⟩, ⟨"b", ⟨true⟩⟩], 2) ∧
    ([] : List Rpc) ≠ [⟨"b", ⟨false⟩⟩] := by
  refine ⟨by decide, by decide, by decide⟩

theorem make_poverty_second_run_witness :
    (make_poverty [⟨"a", ⟨false⟩⟩, ⟨"b", ⟨false⟩⟩] [] [⟨0, 1⟩, ⟨1, 2⟩] =
      some ([⟨"b", ⟨false⟩⟩], [⟨"a", ⟨true⟩⟩], 2)) ∧
    (∀ h ∈ ([⟨0, 2⟩] : List HeadResult),
      h.rpc_list_index < ([⟨"b", ⟨false⟩⟩] : List Rpc).length) ∧
    (∀ h ∈ ([⟨0, 2⟩] : List HeadResult), h.reported_head = 2) ∧
    (∃ agreed2, make_poverty [⟨"b", ⟨false⟩⟩] [⟨"a", ⟨true⟩⟩] [⟨0, 2⟩] =
      some ([⟨"b", ⟨false⟩⟩], [⟨"a", ⟨true⟩⟩], agreed2)) :=
  ⟨by decide, by decide, by decide,
    make_poverty_second_run [⟨"a", ⟨false⟩⟩, ⟨"b", ⟨false⟩⟩] [] [⟨0, 1⟩, ⟨1, 2⟩]
      [⟨"b", ⟨false⟩⟩] [⟨"a", ⟨true⟩⟩] 2 [⟨0, 2⟩] (by decide) (by decide) (by decide)⟩
